import Mathlib

/-!
Verification of the merge/remap core of `pdf_merger.py` (`merge_pdfs`,
lines 785-855, and the save flow in `PDFMerger.on_save`).

The embedding models one source document as the data `merge_pdfs` reads
from it: its page count, whether it is encrypted (`needs_pass`), whether
opening it succeeds at all (`get_pdf` raising propagates out of the
loop), and its table of contents as returned by `get_toc(simple=False)`
(each item `[lvl, title, page, dest]`, with the link kind taken from
`dest["kind"]`).  Pages inserted by `insert_pdf` are modelled as
(source path, source page index, rotation, links-copied flag) tuples:
`insert_pdf(temp_file, from_page=first, to_page=last, rotate=rotation,
links=finalize)` appends exactly the pages of the resolved index
sequence, in that order, each rotated uniformly, with link annotations
copied only when `links` is true.
-/

namespace PdfMerger

/-- Link kind stored in a toc item's destination dictionary
(`link[3]["kind"]`): `fitz.LINK_GOTO`, `fitz.LINK_NAMED`, or any other
kind (URI, LAUNCH, ...). -/
inductive LinkKind where
  | goto : LinkKind
  | named : LinkKind
  | other : LinkKind
deriving DecidableEq, Repr

/-- One item of `Document.get_toc(simple=False)`: `[lvl, title, page, dest]`,
with the destination dictionary abstracted to its `"kind"` field.  For a
`goto` link, `page` is the 1-based target page in the source. -/
structure TocEntry where
  level : Int
  title : String
  page : Int
  kind : LinkKind
deriving DecidableEq, Repr

/-- One row of the grid data handed to `merge_pdfs`
(`file_path, first_pg, last_pg, rotation`) together with the data the
loop body reads from the opened document. -/
structure Source where
  path : String
  firstPg : Int
  lastPg : Int
  rotation : Int
  /-- `len(temp_file)` -/
  pages : Nat
  /-- `temp_file.needs_pass` -/
  needsPass : Bool
  /-- whether `get_pdf(path, finalize)` succeeds; when it raises, the
  exception propagates out of `merge_pdfs`. -/
  opensOk : Bool
  /-- `temp_file.get_toc(simple=False)` -/
  toc : List TocEntry
deriving DecidableEq, Repr

/-- One page of the output document: which source page it came from, the
rotation applied by `insert_pdf`, and whether link annotations were
copied (`links=finalize`). -/
structure OutPage where
  path : String
  pageIndex : Int
  rotation : Int
  links : Bool
deriving DecidableEq, Repr

/-- `first_pg = min(max(0, first_pg), pages - 1)` (line 795). -/
def clampFirst (firstPg : Int) (pages : Nat) : Int :=
  min (max 0 firstPg) ((pages : Int) - 1)

/-- Lines 796-799: `last_pg` is clamped unless it is the sentinel `-1`,
which selects the last page. -/
def resolveLast (lastPg : Int) (pages : Nat) : Int :=
  if lastPg ≠ -1 then min (max 0 lastPg) ((pages : Int) - 1)
  else (pages : Int) - 1

/-- `start, start+1, ..., start+n-1`: Python `range(start, start+n)`. -/
def ascRange (start : Int) : Nat → List Int
  | 0 => []
  | n + 1 => start :: ascRange (start + 1) n

/-- `start, start-1, ..., start-n+1`: Python `range(start, start-n, -1)`. -/
def descRange (start : Int) : Nat → List Int
  | 0 => []
  | n + 1 => start :: descRange (start - 1) n

/-- `pg_range = list(range(first_pg, last_pg + increment, increment))`
with `increment = -1 if first_pg > last_pg else 1` (lines 818-824). -/
def pgRangeList (first last : Int) : List Int :=
  if first > last then descRange first ((first - last).toNat + 1)
  else ascRange first ((last - first).toNat + 1)

/-- Python `list.index` / `in` membership on the resolved index list,
returning the position of the first occurrence. -/
def listIndex (a : Int) : List Int → Option Nat
  | [] => none
  | x :: xs => if x = a then some 0 else (listIndex a xs).map (· + 1)

/-- The while loop of lines 842-844: starting from `last_lvl`, it appends
filler entries `[last_lvl + 1, "<>", page_num, link[3]]` and increments
`last_lvl`, once per unit of the gap; `n` is the number of iterations. -/
def fillerList : Nat → Int → Int → LinkKind → List TocEntry
  | 0, _, _, _ => []
  | n + 1, lastLvl, pageNum, k =>
      { level := lastLvl + 1, title := "<>", page := pageNum, kind := k } ::
        fillerList n (lastLvl + 1) pageNum k

/-- Number of iterations of `while link[0] > last_lvl + 1` when the loop
increments `last_lvl` each round. -/
def fillerCount (lvl lastLvl : Int) : Nat := (lvl - lastLvl - 1).toNat

/-- The body of the `for link in toc` loop (lines 828-848), acting on the
state `(last_lvl, total_toc)`:
named links are skipped; goto links whose 0-based target is outside
`pg_range` are skipped; a goto link in range is retargeted to
`pg_range.index(link[2] - 1) + current_pg + 1`, preceded by filler
entries repairing any level gap, and `last_lvl` becomes its level;
any other link falls through to `total_toc.append(link)` unchanged. -/
def tocStep (pgR : List Int) (currentPg : Nat) (st : Int × List TocEntry)
    (e : TocEntry) : Int × List TocEntry :=
  match e.kind with
  | .named => st
  | .goto =>
      match listIndex (e.page - 1) pgR with
      | none => st
      | some idx =>
          (e.level,
            st.2 ++ fillerList (fillerCount e.level st.1) st.1
                      ((idx : Int) + (currentPg : Int) + 1) e.kind
                 ++ [{ e with page := (idx : Int) + (currentPg : Int) + 1 }])
  | .other => (st.1, st.2 ++ [e])

/-- The whole `for link in toc` loop as a fold. -/
def tocFold (pgR : List Int) (currentPg : Nat) (st : Int × List TocEntry)
    (toc : List TocEntry) : Int × List TocEntry :=
  toc.foldl (tocStep pgR currentPg) st

/-- The accumulator threaded through the source loop of `merge_pdfs`:
`current_pg`, the pages inserted into `output_file` so far, and
`total_toc`. -/
structure MergeState where
  currentPg : Nat
  outPages : List OutPage
  totalToc : List TocEntry
deriving DecidableEq, Repr

def initState : MergeState := { currentPg := 0, outPages := [], totalToc := [] }

/-- The page produced by `insert_pdf(..., rotate=rotation, links=finalize)`
for source page index `i`. -/
def mkPage (finalize : Bool) (src : Source) (i : Int) : OutPage :=
  { path := src.path, pageIndex := i, rotation := src.rotation, links := finalize }

/-- The pages `insert_pdf` appends for one non-encrypted source: the
resolved index sequence, in order, uniformly rotated. -/
def sourcePages (finalize : Bool) (src : Source) : List OutPage :=
  (pgRangeList (clampFirst src.firstPg src.pages) (resolveLast src.lastPg src.pages)).map
    (mkPage finalize src)

/-- One iteration of the `for file_path, ... in grid_data` loop
(lines 788-850), for a source whose `get_pdf` call succeeded:
an encrypted source is skipped entirely (`continue`, line 811); otherwise
its pages are inserted; in non-finalize mode the rest is skipped
(line 814, before `current_pg` is advanced); in finalize mode the toc is
read, reversed when `first_pg > last_pg`, folded through `tocStep` with
`last_lvl` starting at 1 (line 827), and `current_pg` advances by
`len(pg_range)`. -/
def processSource (finalize : Bool) (st : MergeState) (src : Source) : MergeState :=
  let first := clampFirst src.firstPg src.pages
  let last := resolveLast src.lastPg src.pages
  if src.needsPass then st
  else
    let st1 := { st with outPages := st.outPages ++ sourcePages finalize src }
    if !finalize then st1
    else
      let toc := if first > last then src.toc.reverse else src.toc
      let pgR := pgRangeList first last
      { currentPg := st.currentPg + pgR.length,
        outPages := st1.outPages,
        totalToc := (tocFold pgR st.currentPg (1, st.totalToc) toc).2 }

/-- The source loop; a source whose `get_pdf` raises aborts the whole
merge (the exception propagates, carrying the path). -/
def mergeLoop (finalize : Bool) : List Source → MergeState → Except String MergeState
  | [], st => .ok st
  | src :: rest, st =>
      if src.opensOk then mergeLoop finalize rest (processSource finalize st src)
      else .error src.path

/-- The output document: pages plus the toc attached by `set_toc`
(line 853; not called when `total_toc` is empty, leaving the fresh
document's empty outline). -/
structure OutputDoc where
  pages : List OutPage
  toc : List TocEntry
deriving DecidableEq, Repr

/-- `merge_pdfs(grid_data, finalize)` (lines 785-855). -/
def mergePdfs (grid : List Source) (finalize : Bool) : Except String OutputDoc :=
  match mergeLoop finalize grid initState with
  | .error e => .error e
  | .ok st =>
      .ok { pages := st.outPages,
            toc := if st.totalToc.isEmpty then [] else st.totalToc }

/-- Outcome of `PDFMerger.on_save` after the input checks: either the
document was saved, or an error was reported and nothing was saved. -/
inductive SaveOutcome where
  | saved : OutputDoc → SaveOutcome
  | failed : String → SaveOutcome
deriving DecidableEq, Repr

/-- The save flow of `PDFMerger.on_save` (lines 703-713): merge with
`finalize=True`; raise `ValueError` when the output has zero pages,
before `output_pdf.save` runs; otherwise save. -/
def onSave (grid : List Source) : SaveOutcome :=
  match mergePdfs grid true with
  | .error e => .failed e
  | .ok d =>
      if d.pages.length = 0 then .failed "The output pdf has no pages."
      else .saved d

/-- `true` iff no entry's level exceeds its predecessor's level plus 1. -/
def noUpJump : List TocEntry → Bool
  | [] => true
  | [_] => true
  | a :: b :: rest => decide (b.level ≤ a.level + 1) && noUpJump (b :: rest)

/-- Modelled from the spec: the finalize-mode fold step in which
`lastOutlineLevel` "spans the whole merge, not reset per source"
(spec §4.3 step 3 and §9, the merge-scoped reading): identical to
`processSource` with `finalize = true` except that the toc fold starts
from the carried-in level instead of 1. -/
def processSourceCarried (st : Int × MergeState) (src : Source) : Int × MergeState :=
  let first := clampFirst src.firstPg src.pages
  let last := resolveLast src.lastPg src.pages
  if src.needsPass then st
  else
    let toc := if first > last then src.toc.reverse else src.toc
    let pgR := pgRangeList first last
    let folded := tocFold pgR st.2.currentPg (st.1, st.2.totalToc) toc
    (folded.1,
      { currentPg := st.2.currentPg + pgR.length,
        outPages := st.2.outPages ++ sourcePages true src,
        totalToc := folded.2 })

/-- Modelled from the spec: the merge-scoped variant of the loop. -/
def mergeLoopCarried : List Source → Int × MergeState → Except String (Int × MergeState)
  | [], st => .ok st
  | src :: rest, st =>
      if src.opensOk then mergeLoopCarried rest (processSourceCarried st src)
      else .error src.path

/-- Modelled from the spec: `merge_pdfs` in finalize mode with the
`lastOutlineLevel` carried across sources, as §9 of the spec declares
canonical. -/
def mergePdfsCarried (grid : List Source) : Except String OutputDoc :=
  match mergeLoopCarried grid (1, initState) with
  | .error e => .error e
  | .ok st =>
      .ok { pages := st.2.outPages,
            toc := if st.2.totalToc.isEmpty then [] else st.2.totalToc }

example : pgRangeList 1 4 = [1, 2, 3, 4] := by decide
example : pgRangeList 4 1 = [4, 3, 2, 1] := by decide
example : pgRangeList 2 2 = [2] := by decide
example : listIndex 3 [4, 3, 2, 1] = some 1 := by decide
example : listIndex 5 [4, 3, 2, 1] = none := by decide
example : clampFirst (-7) 3 = 0 ∧ clampFirst 9 3 = 2 := by decide
example : resolveLast (-1) 3 = 2 ∧ resolveLast (-2) 3 = 0 ∧ resolveLast 9 3 = 2 := by decide

instance instDecidableEqExcept {ε α : Type} [DecidableEq ε] [DecidableEq α] :
    DecidableEq (Except ε α)
  | .error a, .error b =>
      if h : a = b then isTrue (h ▸ rfl)
      else isFalse fun hh => h (Except.noConfusion hh id)
  | .error _, .ok _ => isFalse fun hh => Except.noConfusion hh
  | .ok _, .error _ => isFalse fun hh => Except.noConfusion hh
  | .ok a, .ok b =>
      if h : a = b then isTrue (h ▸ rfl)
      else isFalse fun hh => h (Except.noConfusion hh id)

/-- A one-page source whose outline has a single level-3 goto entry at
page 1. -/
def srcLvl3A : Source :=
  { path := "a.pdf", firstPg := 0, lastPg := -1, rotation := 0, pages := 1,
    needsPass := false, opensOk := true, toc := [⟨3, "x", 1, .goto⟩] }

/-- Like `srcLvl3A`, with a different path and title. -/
def srcLvl3B : Source :=
  { path := "b.pdf", firstPg := 0, lastPg := -1, rotation := 0, pages := 1,
    needsPass := false, opensOk := true, toc := [⟨3, "y", 1, .goto⟩] }

/-- A plain one-page source with an empty outline. -/
def srcPlain : Source :=
  { path := "c.pdf", firstPg := 0, lastPg := -1, rotation := 0, pages := 1,
    needsPass := false, opensOk := true, toc := [] }

/-- A source whose `get_pdf` call raises (unreadable / unsupported). -/
def srcBad : Source :=
  { path := "bad.xyz", firstPg := 0, lastPg := -1, rotation := 0, pages := 1,
    needsPass := false, opensOk := false, toc := [] }

/-- An encrypted one-page source. -/
def srcLocked : Source :=
  { path := "locked.pdf", firstPg := 0, lastPg := -1, rotation := 0, pages := 1,
    needsPass := true, opensOk := true, toc := [⟨1, "z", 1, .goto⟩] }

/-- A one-page source whose outline is a level-1 goto entry followed by a
level-3 entry of a non-goto, non-named kind (e.g. a URI link). -/
def srcOther : Source :=
  { path := "o.pdf", firstPg := 0, lastPg := -1, rotation := 0, pages := 1,
    needsPass := false, opensOk := true,
    toc := [⟨1, "g", 1, .goto⟩, ⟨3, "u", -1, .other⟩] }

example :
    (mergePdfs [srcLvl3A, srcLvl3B] true).map (fun d => d.toc.map TocEntry.level) =
      .ok [2, 3, 2, 3] := by decide

example :
    (mergePdfsCarried [srcLvl3A, srcLvl3B]).map (fun d => d.toc.map TocEntry.level) =
      .ok [2, 3, 3] := by decide

example :
    (mergePdfs [srcOther] true).map (fun d => noUpJump d.toc) = .ok false := by decide

example : mergePdfs [srcBad, srcPlain] true = .error "bad.xyz" := by decide

example :
    (mergePdfs [srcPlain] false).map OutputDoc.pages =
      .ok [{ path := "c.pdf", pageIndex := 0, rotation := 0, links := false }] := by
  decide

/-! ### Range lemmas -/

lemma ascRange_succ (s : Int) (n : Nat) : ascRange s (n + 1) = s :: ascRange (s + 1) n :=
  rfl

lemma descRange_succ (s : Int) (n : Nat) : descRange s (n + 1) = s :: descRange (s - 1) n :=
  rfl

lemma ascRange_length (s : Int) (n : Nat) : (ascRange s n).length = n := by
  induction n generalizing s with
  | zero => rfl
  | succ n ih => simp [ascRange, ih]

lemma descRange_length (s : Int) (n : Nat) : (descRange s n).length = n := by
  induction n generalizing s with
  | zero => rfl
  | succ n ih => simp [descRange, ih]

lemma ascRange_getLast (s : Int) (n : Nat) :
    (ascRange s (n + 1)).getLast? = some (s + n) := by
  induction n generalizing s with
  | zero => simp [ascRange]
  | succ n ih =>
      rw [ascRange_succ, ascRange_succ, List.getLast?_cons_cons, ← ascRange_succ, ih]
      congr 1
      push_cast
      omega

lemma descRange_getLast (s : Int) (n : Nat) :
    (descRange s (n + 1)).getLast? = some (s - n) := by
  induction n generalizing s with
  | zero => simp [descRange]
  | succ n ih =>
      rw [descRange_succ, descRange_succ, List.getLast?_cons_cons, ← descRange_succ, ih]
      congr 1
      push_cast
      omega

lemma mem_ascRange {x : Int} (s : Int) (n : Nat) (h : x ∈ ascRange s n) :
    s ≤ x ∧ x < s + n := by
  induction n generalizing s with
  | zero => simp [ascRange] at h
  | succ n ih =>
      rcases List.mem_cons.mp h with h1 | h1
      · subst h1; push_cast; omega
      · have := ih (s + 1) h1
        push_cast at this ⊢
        omega

lemma mem_descRange {x : Int} (s : Int) (n : Nat) (h : x ∈ descRange s n) :
    s - n < x ∧ x ≤ s := by
  induction n generalizing s with
  | zero => simp [descRange] at h
  | succ n ih =>
      rcases List.mem_cons.mp h with h1 | h1
      · subst h1; push_cast; omega
      · have := ih (s - 1) h1
        push_cast at this ⊢
        omega

lemma chain'_ascRange (s : Int) (n : Nat) :
    List.Chain' (fun a b => b = a + 1) (ascRange s n) := by
  induction n generalizing s with
  | zero => simp [ascRange]
  | succ n ih =>
      rw [ascRange_succ, List.chain'_cons']
      refine ⟨fun y hy => ?_, ih (s + 1)⟩
      cases n with
      | zero => simp [ascRange] at hy
      | succ m =>
          rw [ascRange_succ] at hy
          simp at hy
          omega

lemma chain'_descRange (s : Int) (n : Nat) :
    List.Chain' (fun a b => b = a + -1) (descRange s n) := by
  induction n generalizing s with
  | zero => simp [descRange]
  | succ n ih =>
      rw [descRange_succ, List.chain'_cons']
      refine ⟨fun y hy => ?_, ih (s - 1)⟩
      cases n with
      | zero => simp [descRange] at hy
      | succ m =>
          rw [descRange_succ] at hy
          simp at hy
          omega

lemma descRange_snoc (t : Int) (n : Nat) :
    descRange t (n + 1) = descRange t n ++ [t - n] := by
  induction n generalizing t with
  | zero => simp [descRange]
  | succ n ih =>
      have hc : t - 1 - (n : Int) = t - (((n + 1 : Nat) : Int)) := by push_cast; ring
      rw [descRange_succ t (n + 1), ih (t - 1), hc, descRange_succ t n, List.cons_append]

lemma ascRange_reverse (s : Int) (n : Nat) :
    (ascRange s n).reverse = descRange (s + n - 1) n := by
  induction n generalizing s with
  | zero => rfl
  | succ n ih =>
      rw [ascRange_succ, List.reverse_cons, ih (s + 1), descRange_snoc]
      congr 2 <;> push_cast <;> omega

lemma pgRangeList_rev {first last : Int} (h : last < first) :
    pgRangeList first last = (pgRangeList last first).reverse := by
  rw [pgRangeList, pgRangeList, if_pos h, if_neg (by omega), ascRange_reverse]
  congr 1
  have h0 : (0 : Int) ≤ first - last := by omega
  push_cast [Int.toNat_of_nonneg h0]
  omega

lemma pgRangeList_length (first last : Int) :
    (pgRangeList first last).length = (last - first).natAbs + 1 := by
  unfold pgRangeList
  split
  · rw [descRange_length]; omega
  · rw [ascRange_length]; omega

lemma pgRangeList_ne_nil (first last : Int) : pgRangeList first last ≠ [] := by
  intro h
  have hl := pgRangeList_length first last
  rw [h] at hl
  simp at hl

lemma pgRangeList_head (first last : Int) :
    (pgRangeList first last).head? = some first := by
  unfold pgRangeList
  split
  · rw [descRange_succ]; rfl
  · rw [ascRange_succ]; rfl

lemma pgRangeList_getLast (first last : Int) :
    (pgRangeList first last).getLast? = some last := by
  unfold pgRangeList
  split
  · rw [descRange_getLast]; congr 1; omega
  · rw [ascRange_getLast]; congr 1; omega

lemma pgRangeList_mem {i : Int} (first last : Int) (h : i ∈ pgRangeList first last) :
    min first last ≤ i ∧ i ≤ max first last := by
  unfold pgRangeList at h
  split at h
  · have := mem_descRange _ _ h
    push_cast at this
    omega
  · have := mem_ascRange _ _ h
    push_cast at this
    omega

lemma pgRangeList_chain (first last : Int) :
    List.Chain' (fun a b => b = a + (if first ≤ last then 1 else -1))
      (pgRangeList first last) := by
  by_cases h : first > last
  · simp only [pgRangeList, if_pos h, if_neg (show ¬ first ≤ last by omega)]
    exact chain'_descRange _ _
  · simp only [pgRangeList, if_neg h, if_pos (show first ≤ last by omega)]
    exact chain'_ascRange _ _

lemma clampFirst_bounds (firstPg : Int) (pages : Nat) (hp : 1 ≤ pages) :
    0 ≤ clampFirst firstPg pages ∧ clampFirst firstPg pages ≤ (pages : Int) - 1 := by
  unfold clampFirst
  omega

lemma resolveLast_bounds (lastPg : Int) (pages : Nat) (hp : 1 ≤ pages) :
    0 ≤ resolveLast lastPg pages ∧ resolveLast lastPg pages ≤ (pages : Int) - 1 := by
  unfold resolveLast
  split <;> omega

/-- C5: for every `firstPage`, `lastPage` and `pageCount ≥ 1`, the resolver
clamps `firstPage` into `[0, pageCount-1]`, maps the sentinel `-1` to
`pageCount-1` and clamps any other `lastPage` into `[0, pageCount-1]`,
steps by `+1` when `first ≤ last` and `-1` otherwise, and yields the
inclusive sequence from `first` to `last`: never empty, of length
`|last-first|+1`, every index a valid page of the source. -/
theorem resolver_C5 (firstPg lastPg : Int) (pages : Nat) (hp : 1 ≤ pages) :
    (0 ≤ clampFirst firstPg pages ∧ clampFirst firstPg pages ≤ (pages : Int) - 1) ∧
    (lastPg = -1 → resolveLast lastPg pages = (pages : Int) - 1) ∧
    (0 ≤ resolveLast lastPg pages ∧ resolveLast lastPg pages ≤ (pages : Int) - 1) ∧
    pgRangeList (clampFirst firstPg pages) (resolveLast lastPg pages) ≠ [] ∧
    (pgRangeList (clampFirst firstPg pages) (resolveLast lastPg pages)).length
      = (resolveLast lastPg pages - clampFirst firstPg pages).natAbs + 1 ∧
    (∀ i ∈ pgRangeList (clampFirst firstPg pages) (resolveLast lastPg pages),
      0 ≤ i ∧ i < (pages : Int)) ∧
    (pgRangeList (clampFirst firstPg pages) (resolveLast lastPg pages)).head?
      = some (clampFirst firstPg pages) ∧
    (pgRangeList (clampFirst firstPg pages) (resolveLast lastPg pages)).getLast?
      = some (resolveLast lastPg pages) ∧
    List.Chain'
      (fun a b =>
        b = a + (if clampFirst firstPg pages ≤ resolveLast lastPg pages then 1 else -1))
      (pgRangeList (clampFirst firstPg pages) (resolveLast lastPg pages)) := by
  have hf := clampFirst_bounds firstPg pages hp
  have hl := resolveLast_bounds lastPg pages hp
  refine ⟨hf, fun hs => by rw [hs, resolveLast]; simp, hl, pgRangeList_ne_nil _ _,
    pgRangeList_length _ _, fun i hi => ?_, pgRangeList_head _ _, pgRangeList_getLast _ _,
    pgRangeList_chain _ _⟩
  have := pgRangeList_mem _ _ hi
  omega

/-- Witness for C5 at `firstPg = 5`, `lastPg = 1`, `pages = 4` (so the
clamped first page is 3 and the range runs backward to 1). -/
theorem resolver_C5_witness :
    (1 : Nat) ≤ 4 ∧
    ((0 ≤ clampFirst 5 4 ∧ clampFirst 5 4 ≤ (4 : Int) - 1) ∧
    ((1 : Int) = -1 → resolveLast 1 4 = (4 : Int) - 1) ∧
    (0 ≤ resolveLast 1 4 ∧ resolveLast 1 4 ≤ (4 : Int) - 1) ∧
    pgRangeList (clampFirst 5 4) (resolveLast 1 4) ≠ [] ∧
    (pgRangeList (clampFirst 5 4) (resolveLast 1 4)).length
      = (resolveLast 1 4 - clampFirst 5 4).natAbs + 1 ∧
    (∀ i ∈ pgRangeList (clampFirst 5 4) (resolveLast 1 4), 0 ≤ i ∧ i < (4 : Int)) ∧
    (pgRangeList (clampFirst 5 4) (resolveLast 1 4)).head? = some (clampFirst 5 4) ∧
    (pgRangeList (clampFirst 5 4) (resolveLast 1 4)).getLast? = some (resolveLast 1 4) ∧
    List.Chain'
      (fun a b => b = a + (if clampFirst 5 4 ≤ resolveLast 1 4 then 1 else -1))
      (pgRangeList (clampFirst 5 4) (resolveLast 1 4))) :=
  ⟨by decide, resolver_C5 5 1 4 (by decide)⟩

/-! ### Decomposition of the toc fold and of one loop iteration -/

lemma tocStep_append (pgR : List Int) (cur : Nat) (l : Int) (acc : List TocEntry)
    (e : TocEntry) :
    tocStep pgR cur (l, acc) e
      = ((tocStep pgR cur (l, []) e).1, acc ++ (tocStep pgR cur (l, []) e).2) := by
  cases hk : e.kind with
  | named => simp [tocStep, hk]
  | other => simp [tocStep, hk]
  | goto =>
      cases hidx : listIndex (e.page - 1) pgR with
      | none => simp [tocStep, hk, hidx]
      | some idx => simp [tocStep, hk, hidx]

lemma tocFold_append (pgR : List Int) (cur : Nat) (toc : List TocEntry) :
    ∀ (l : Int) (acc : List TocEntry),
      tocFold pgR cur (l, acc) toc
        = ((tocFold pgR cur (l, []) toc).1, acc ++ (tocFold pgR cur (l, []) toc).2) := by
  induction toc with
  | nil => intro l acc; simp [tocFold]
  | cons e toc ih =>
      intro l acc
      rcases hstep : tocStep pgR cur (l, []) e with ⟨l1, d⟩
      have hstep' : tocStep pgR cur (l, acc) e = (l1, acc ++ d) := by
        rw [tocStep_append, hstep]
      have hlhs : tocFold pgR cur (l, acc) (e :: toc) = tocFold pgR cur (l1, acc ++ d) toc := by
        show tocFold pgR cur (tocStep pgR cur (l, acc) e) toc = _
        rw [hstep']
      have hrhs : tocFold pgR cur (l, []) (e :: toc) = tocFold pgR cur (l1, d) toc := by
        show tocFold pgR cur (tocStep pgR cur (l, []) e) toc = _
        rw [hstep]
      rw [hlhs, hrhs, ih l1 (acc ++ d), ih l1 d]
      simp [List.append_assoc]

/-- The toc entries appended for one opened, unencrypted source in
finalize mode: the source's outline (reversed when the selection runs
backward) folded with `last_lvl` starting at 1. -/
def sourceToc (cur : Nat) (src : Source) : List TocEntry :=
  (tocFold
    (pgRangeList (clampFirst src.firstPg src.pages) (resolveLast src.lastPg src.pages))
    cur (1, [])
    (if clampFirst src.firstPg src.pages > resolveLast src.lastPg src.pages then
      src.toc.reverse
    else src.toc)).2

/-- Closed form of one loop iteration: an encrypted source leaves the
state untouched; otherwise the source's pages are appended, and in
finalize mode its remapped outline and page count are folded in. -/
lemma processSource_eq (finalize : Bool) (st : MergeState) (src : Source) :
    processSource finalize st src
      = if src.needsPass then st
        else if finalize then
          { currentPg := st.currentPg
              + (pgRangeList (clampFirst src.firstPg src.pages)
                  (resolveLast src.lastPg src.pages)).length,
            outPages := st.outPages ++ sourcePages true src,
            totalToc := st.totalToc ++ sourceToc st.currentPg src }
        else { st with outPages := st.outPages ++ sourcePages false src } := by
  cases hp : src.needsPass with
  | true => simp [processSource, hp]
  | false =>
      cases finalize with
      | false => simp [processSource, hp]
      | true =>
          simp only [processSource, hp, Bool.not_true, Bool.false_eq_true, if_false, sourceToc]
          rw [tocFold_append]
          simp

/-- C10: only `lastPage = -1` acts as the "to end" sentinel; every other
negative `lastPage` is clamped to 0, so a selection with
`firstPage > 0` and `lastPage = -2` resolves to the backward range from
`firstPage` down to page 0 rather than to the end of the document. -/
theorem sentinel_C10 (firstPg lastPg : Int) (pages : Nat) (hp : 1 ≤ pages) :
    resolveLast (-1) pages = (pages : Int) - 1 ∧
    (lastPg < 0 → lastPg ≠ -1 → resolveLast lastPg pages = 0) ∧
    (0 < firstPg → firstPg ≤ (pages : Int) - 1 →
      pgRangeList (clampFirst firstPg pages) (resolveLast (-2) pages)
        = descRange firstPg (firstPg.toNat + 1)) := by
  refine ⟨by simp [resolveLast], fun h1 h2 => ?_, fun h3 h4 => ?_⟩
  · unfold resolveLast
    rw [if_pos h2]
    omega
  · have hc : clampFirst firstPg pages = firstPg := by unfold clampFirst; omega
    have hr : resolveLast (-2) pages = 0 := by
      unfold resolveLast
      rw [if_pos (by decide)]
      omega
    rw [hc, hr, pgRangeList, if_pos h3]
    congr 1
    omega

/-- Witness for C10 at `firstPg = 2`, `lastPg = -2`, `pages = 3`: the
selection resolves to `[2, 1, 0]`, not to the end of the document. -/
theorem sentinel_C10_witness :
    (1 : Nat) ≤ 3 ∧
    (resolveLast (-1) 3 = (3 : Int) - 1 ∧
    ((-2 : Int) < 0 → (-2 : Int) ≠ -1 → resolveLast (-2) 3 = 0) ∧
    (0 < (2 : Int) → (2 : Int) ≤ (3 : Int) - 1 →
      pgRangeList (clampFirst 2 3) (resolveLast (-2) 3)
        = descRange 2 ((2 : Int).toNat + 1))) :=
  ⟨by decide, sentinel_C10 2 (-2) 3 (by decide)⟩

/-- A three-page source selected backward (`first_pg = 2`, `last_pg = 0`)
with one level-1 goto entry at source page 2. -/
def srcRev : Source :=
  { path := "r.pdf", firstPg := 2, lastPg := 0, rotation := 90, pages := 3,
    needsPass := false, opensOk := true, toc := [⟨1, "t", 2, .goto⟩] }

/-- C6: when the clamped last page is below the clamped first page, the
resolved index sequence is the exact reverse of the forward selection
over the same bounds, and in finalize mode the source's pages are
appended in that reversed order while its outline list is reversed
before remapping. -/
theorem reversal_C6 (src : Source) (st : MergeState)
    (h : resolveLast src.lastPg src.pages < clampFirst src.firstPg src.pages) :
    pgRangeList (clampFirst src.firstPg src.pages) (resolveLast src.lastPg src.pages)
      = (pgRangeList (resolveLast src.lastPg src.pages)
          (clampFirst src.firstPg src.pages)).reverse ∧
    (src.needsPass = false →
      (processSource true st src).outPages
        = st.outPages
          ++ ((pgRangeList (resolveLast src.lastPg src.pages)
                (clampFirst src.firstPg src.pages)).reverse.map (mkPage true src)) ∧
      (processSource true st src).totalToc
        = st.totalToc
          ++ (tocFold
                (pgRangeList (clampFirst src.firstPg src.pages)
                  (resolveLast src.lastPg src.pages))
                st.currentPg (1, []) src.toc.reverse).2) := by
  have h1 := pgRangeList_rev h
  refine ⟨h1, fun hnp => ⟨?_, ?_⟩⟩
  · rw [processSource_eq]
    simp only [hnp, Bool.false_eq_true, if_false, if_true, sourcePages]
    rw [h1]
  · rw [processSource_eq]
    simp only [hnp, Bool.false_eq_true, if_false, if_true, sourceToc, if_pos h]

/-- Witness for C6 at `srcRev` (three pages selected backward from index
2 down to 0) starting from the empty accumulator. -/
theorem reversal_C6_witness :
    resolveLast srcRev.lastPg srcRev.pages < clampFirst srcRev.firstPg srcRev.pages ∧
    (pgRangeList (clampFirst srcRev.firstPg srcRev.pages)
        (resolveLast srcRev.lastPg srcRev.pages)
      = (pgRangeList (resolveLast srcRev.lastPg srcRev.pages)
          (clampFirst srcRev.firstPg srcRev.pages)).reverse ∧
    (srcRev.needsPass = false →
      (processSource true initState srcRev).outPages
        = initState.outPages
          ++ ((pgRangeList (resolveLast srcRev.lastPg srcRev.pages)
                (clampFirst srcRev.firstPg srcRev.pages)).reverse.map (mkPage true srcRev)) ∧
      (processSource true initState srcRev).totalToc
        = initState.totalToc
          ++ (tocFold
                (pgRangeList (clampFirst srcRev.firstPg srcRev.pages)
                  (resolveLast srcRev.lastPg srcRev.pages))
                initState.currentPg (1, []) srcRev.toc.reverse).2)) :=
  ⟨by decide, reversal_C6 srcRev initState (by decide)⟩

lemma listIndex_eq_none_iff (a : Int) (xs : List Int) :
    listIndex a xs = none ↔ a ∉ xs := by
  induction xs with
  | nil => simp [listIndex]
  | cons x xs ih =>
      by_cases hx : x = a
      · subst hx
        simp [listIndex]
      · simp [listIndex, hx, Option.map_eq_none', ih, Ne.symm hx]

/-- C4: in the per-entry toc step, a `Named` entry is always dropped; a
`Goto` entry whose 0-based target page is not in the resolved index
sequence is dropped; a `Goto` entry found at position `idx` of the
sequence is retargeted to `idx + outputOffset + 1` (1-based) and
appended after any level fillers. -/
theorem gotoRemap_C4 (pgR : List Int) (cur : Nat) (l : Int) (acc : List TocEntry)
    (e : TocEntry) :
    (e.kind = .named → tocStep pgR cur (l, acc) e = (l, acc)) ∧
    (e.kind = .goto → (e.page - 1) ∉ pgR → tocStep pgR cur (l, acc) e = (l, acc)) ∧
    (∀ idx : Nat, e.kind = .goto → listIndex (e.page - 1) pgR = some idx →
      tocStep pgR cur (l, acc) e
        = (e.level,
            acc ++ fillerList (fillerCount e.level l) l ((idx : Int) + (cur : Int) + 1) e.kind
                ++ [{ e with page := (idx : Int) + (cur : Int) + 1 }])) := by
  refine ⟨fun hk => ?_, fun hk hmem => ?_, fun idx hk hidx => ?_⟩
  · simp [tocStep, hk]
  · have : listIndex (e.page - 1) pgR = none := (listIndex_eq_none_iff _ _).mpr hmem
    simp [tocStep, hk, this]
  · simp [tocStep, hk, hidx]

/-- Witness for C4: a named entry is dropped; a goto to source page 9 is
dropped for range `[4, 3, 2]`; a goto to source page 4 (0-based 3, at
position 1 of `[4, 3, 2]`) maps to output page `1 + 5 + 1 = 7`. -/
theorem gotoRemap_C4_witness :
    (TocEntry.kind ⟨1, "n", 1, .named⟩ = .named ∧
      tocStep [4, 3, 2] 5 (1, []) ⟨1, "n", 1, .named⟩ = (1, [])) ∧
    (TocEntry.kind ⟨1, "g", 9, .goto⟩ = .goto ∧ ((9 : Int) - 1) ∉ [(4 : Int), 3, 2] ∧
      tocStep [4, 3, 2] 5 (1, []) ⟨1, "g", 9, .goto⟩ = (1, [])) ∧
    (TocEntry.kind ⟨2, "h", 4, .goto⟩ = .goto ∧
      listIndex ((4 : Int) - 1) [4, 3, 2] = some 1 ∧
      tocStep [4, 3, 2] 5 (1, []) ⟨2, "h", 4, .goto⟩
        = (2, [] ++ fillerList (fillerCount 2 1) 1 ((1 : Int) + (5 : Int) + 1) .goto
                 ++ [⟨2, "h", (1 : Int) + (5 : Int) + 1, .goto⟩])) :=
  ⟨⟨rfl, (gotoRemap_C4 [4, 3, 2] 5 1 [] ⟨1, "n", 1, .named⟩).1 rfl⟩,
   ⟨rfl, by decide, (gotoRemap_C4 [4, 3, 2] 5 1 [] ⟨1, "g", 9, .goto⟩).2.1 rfl (by decide)⟩,
   ⟨rfl, by decide, (gotoRemap_C4 [4, 3, 2] 5 1 [] ⟨2, "h", 4, .goto⟩).2.2 1 rfl (by decide)⟩⟩

/-- C1 counterexample: merging two one-page sources whose outlines each
hold a single level-3 goto entry.  The level state left by source one is
3, yet source two's processing starts again from `last_lvl = 1` and
re-synthesizes a level-2 filler, giving output levels `[2, 3, 2, 3]`;
the spec's carried (merge-scoped) behavior gives `[2, 3, 3]`. -/
theorem carriedLevel_C1_counterexample :
    (mergePdfs [srcLvl3A, srcLvl3B] true).map (fun d => d.toc.map TocEntry.level)
      = .ok [2, 3, 2, 3] ∧
    (mergePdfsCarried [srcLvl3A, srcLvl3B]).map (fun d => d.toc.map TocEntry.level)
      = .ok [2, 3, 3] ∧
    mergePdfs [srcLvl3A, srcLvl3B] true ≠ mergePdfsCarried [srcLvl3A, srcLvl3B] :=
  ⟨by decide, by decide, by decide⟩

/-- C1 (amended): `last_lvl` is reset to 1 at the start of each source's
outline processing (line 827), so the outline block appended for a
source depends only on that source and the incoming page offset, never
on the level state left by the previous source's last processed
entry. -/
theorem carriedLevel_C1_amended (st : MergeState) (src : Source) :
    (processSource true st src).totalToc
      = st.totalToc ++ (if src.needsPass then [] else sourceToc st.currentPg src) := by
  rw [processSource_eq]
  cases hp : src.needsPass <;> simp [hp]

/-- C2 counterexample: a source whose `get_pdf` call fails is not skipped;
the exception aborts the merge, and the following readable source never
reaches the output. -/
theorem skipAll_C2_counterexample :
    mergePdfs [srcBad, srcPlain] true = .error "bad.xyz" := by decide

/-- C2 (amended): an encrypted source is skipped and the loop continues
with the remaining sources as if it were absent; but a source that fails
to open (unreadable / unsupported) aborts the whole merge with an error
naming its path, and no `(path, reason)` list is accumulated. -/
theorem skipAll_C2_amended (finalize : Bool) (src : Source) (rest : List Source) :
    (src.opensOk = true → src.needsPass = true →
      mergePdfs (src :: rest) finalize = mergePdfs rest finalize) ∧
    (src.opensOk = false → mergePdfs (src :: rest) finalize = .error src.path) := by
  constructor
  · intro ho hp
    have hskip : processSource finalize initState src = initState := by
      rw [processSource_eq, if_pos hp]
    unfold mergePdfs
    have : mergeLoop finalize (src :: rest) initState
        = mergeLoop finalize rest initState := by
      simp [mergeLoop, ho, hskip]
    rw [this]
  · intro ho
    unfold mergePdfs
    simp [mergeLoop, ho]

/-- Witness for C2: the encrypted source `srcLocked` is skipped while the
merge of the remaining list is unchanged, and the unreadable `srcBad`
aborts the merge with its path. -/
theorem skipAll_C2_witness :
    (srcLocked.opensOk = true ∧ srcLocked.needsPass = true ∧
      mergePdfs [srcLocked, srcPlain] true = mergePdfs [srcPlain] true) ∧
    (srcBad.opensOk = false ∧ mergePdfs [srcBad] true = .error srcBad.path) :=
  ⟨⟨rfl, rfl, (skipAll_C2_amended true srcLocked [srcPlain]).1 rfl rfl⟩,
   ⟨rfl, (skipAll_C2_amended true srcBad []).2 rfl⟩⟩

lemma processSource_outPages (finalize : Bool) (st : MergeState) (src : Source) :
    (processSource finalize st src).outPages
      = st.outPages ++ (if src.needsPass then [] else sourcePages finalize src) := by
  rw [processSource_eq]
  cases hp : src.needsPass <;> cases finalize <;> simp [hp]

/-- C7 counterexample: `[A(ok), B(fails to open), C(ok)]` produces no
output at all — the merge aborts at B, so C's pages appear in no output
and B does not merely "contribute zero pages". -/
theorem encryptedSkip_C7_counterexample :
    mergePdfs [srcPlain, srcBad, srcRev] true = .error "bad.xyz" := by decide

/-- C7 (amended): for every source that reports itself encrypted, the
loop iteration leaves the accumulator untouched (zero pages, zero
outline entries, unchanged offset), and for `[A(ok), B(encrypted),
C(ok)]` the output holds exactly A's then C's pages in that order.  The
"(or fails to open)" case is excluded: an open failure aborts the
merge. -/
theorem encryptedSkip_C7_amended (finalize : Bool) (A B C : Source) (st : MergeState) :
    (B.needsPass = true → processSource finalize st B = st) ∧
    (A.opensOk = true → B.opensOk = true → C.opensOk = true → B.needsPass = true →
      A.needsPass = false → C.needsPass = false →
      ∀ d, mergePdfs [A, B, C] finalize = .ok d →
        d.pages = sourcePages finalize A ++ sourcePages finalize C) := by
  have hskip : ∀ st' : MergeState, B.needsPass = true → processSource finalize st' B = st' :=
    fun st' hp => by rw [processSource_eq, if_pos hp]
  refine ⟨hskip st, fun hoA hoB hoC hpB hpA hpC d hd => ?_⟩
  have hloop : mergeLoop finalize [A, B, C] initState
      = .ok (processSource finalize
              (processSource finalize (processSource finalize initState A) B) C) := by
    simp [mergeLoop, hoA, hoB, hoC]
  rw [mergePdfs, hloop] at hd
  have hd' :
      d = { pages := (processSource finalize
                (processSource finalize (processSource finalize initState A) B) C).outPages,
            toc := if (processSource finalize
                (processSource finalize (processSource finalize initState A) B) C).totalToc.isEmpty
              then []
              else (processSource finalize
                (processSource finalize (processSource finalize initState A) B) C).totalToc } := by
    cases hd
    rfl
  rw [hd', hskip _ hpB]
  show (processSource finalize (processSource finalize initState A) C).outPages = _
  rw [processSource_outPages, processSource_outPages]
  simp [hpA, hpC, initState]

/-- The output document of merging `[srcPlain, srcLocked, srcRev]` in
finalize mode: srcPlain's single page, then srcRev's three pages in
reversed order; srcLocked contributes nothing. -/
def docC7 : OutputDoc :=
  { pages := [⟨"c.pdf", 0, 0, true⟩, ⟨"r.pdf", 2, 90, true⟩, ⟨"r.pdf", 1, 90, true⟩,
      ⟨"r.pdf", 0, 90, true⟩],
    toc := [⟨1, "t", 3, .goto⟩] }

/-- Witness for C7 with `A = srcPlain`, `B = srcLocked` (encrypted),
`C = srcRev`. -/
theorem encryptedSkip_C7_witness :
    (srcLocked.needsPass = true ∧ processSource true initState srcLocked = initState) ∧
    (mergePdfs [srcPlain, srcLocked, srcRev] true = .ok docC7 ∧
      docC7.pages = sourcePages true srcPlain ++ sourcePages true srcRev) :=
  ⟨⟨rfl, (encryptedSkip_C7_amended true srcPlain srcLocked srcRev initState).1 rfl⟩,
   ⟨by decide,
    (encryptedSkip_C7_amended true srcPlain srcLocked srcRev initState).2 rfl rfl rfl rfl
      rfl rfl docC7 (by decide)⟩⟩

/-- C9: a zero-page result is caught after the merge loop, before any
save: `on_save` never saves a document with an empty page list, and when
the merge returns zero pages it fails with the no-pages error. -/
theorem outputEmpty_C9 (grid : List Source) :
    (∀ d, onSave grid = .saved d → d.pages ≠ []) ∧
    (∀ d, mergePdfs grid true = .ok d → d.pages = [] →
      onSave grid = .failed "The output pdf has no pages.") := by
  constructor
  · intro d hd hnil
    unfold onSave at hd
    cases hm : mergePdfs grid true with
    | error e => rw [hm] at hd; cases hd
    | ok dd =>
        rw [hm] at hd
        dsimp only at hd
        by_cases hz : dd.pages.length = 0
        · rw [if_pos hz] at hd
          cases hd
        · rw [if_neg hz] at hd
          cases hd
          exact hz (by rw [hnil]; rfl)
  · intro d hm hnil
    unfold onSave
    rw [hm]
    dsimp only
    rw [if_pos (by rw [hnil]; rfl)]

/-- The saved document for a merge of `[srcPlain]` alone. -/
def docC9 : OutputDoc := { pages := [⟨"c.pdf", 0, 0, true⟩], toc := [] }

/-- Witness for C9: `[srcPlain]` merges to a one-page document that is
saved (and indeed has pages); `[srcLocked]` merges to a zero-page
document and `on_save` fails before saving. -/
theorem outputEmpty_C9_witness :
    (onSave [srcPlain] = .saved docC9 ∧ docC9.pages ≠ []) ∧
    (mergePdfs [srcLocked] true = .ok ⟨[], []⟩ ∧ (⟨[], []⟩ : OutputDoc).pages = [] ∧
      onSave [srcLocked] = .failed "The output pdf has no pages.") :=
  ⟨⟨by decide, (outputEmpty_C9 [srcPlain]).1 docC9 (by decide)⟩,
   ⟨by decide, rfl, (outputEmpty_C9 [srcLocked]).2 ⟨[], []⟩ (by decide) rfl⟩⟩

/-- Forgets whether link annotations were copied onto a page. -/
def delink (p : OutPage) : OutPage := { p with links := false }

lemma sourcePages_delink (src : Source) :
    (sourcePages true src).map delink = sourcePages false src := by
  simp only [sourcePages, List.map_map]
  rfl

lemma processSource_preview_totalToc (st : MergeState) (src : Source) :
    (processSource false st src).totalToc = st.totalToc := by
  rw [processSource_eq]
  cases hp : src.needsPass <;> simp [hp]

lemma mergeLoop_preview (srcs : List Source) :
    ∀ stf stt : MergeState, stf.outPages = stt.outPages.map delink → stf.totalToc = [] →
      (mergeLoop false srcs stf).map (fun st => (st.outPages, st.totalToc))
        = (mergeLoop true srcs stt).map
            (fun st => (st.outPages.map delink, ([] : List TocEntry))) := by
  induction srcs with
  | nil =>
      intro stf stt h1 h2
      simp [mergeLoop, Except.map, h1, h2]
  | cons src rest ih =>
      intro stf stt h1 h2
      by_cases ho : src.opensOk = true
      · simp only [mergeLoop, ho, if_true]
        apply ih
        · rw [processSource_outPages, processSource_outPages, h1, List.map_append]
          cases hp : src.needsPass <;> simp [sourcePages_delink]
        · rw [processSource_preview_totalToc, h2]
      · simp [mergeLoop, ho, Except.map]

/-- C8 counterexample: in preview mode `insert_pdf` is called with
`links=False`, so the preview pages are not identical in content to the
finalize-mode pages — their link annotations are dropped. -/
theorem previewFrame_C8_counterexample :
    (mergePdfs [srcPlain] false).map OutputDoc.pages
      = .ok [⟨"c.pdf", 0, 0, false⟩] ∧
    (mergePdfs [srcPlain] true).map OutputDoc.pages
      = .ok [⟨"c.pdf", 0, 0, true⟩] ∧
    (mergePdfs [srcPlain] false).map OutputDoc.pages
      ≠ (mergePdfs [srcPlain] true).map OutputDoc.pages :=
  ⟨by decide, by decide, by decide⟩

/-- C8 (amended): with `finalize = false` no outline entry is collected
and no outline is attached, and the output pages agree with the
finalize-mode result in source page, order and rotation — but not in
link annotations, which preview mode drops (`links=finalize`). -/
theorem previewFrame_C8_amended (grid : List Source) :
    (mergePdfs grid false).map (fun d => (d.pages, d.toc))
      = (mergePdfs grid true).map
          (fun d => (d.pages.map delink, ([] : List TocEntry))) := by
  have h := mergeLoop_preview grid initState initState rfl rfl
  unfold mergePdfs
  cases hf : mergeLoop false grid initState with
  | error e =>
      cases ht : mergeLoop true grid initState with
      | error e2 =>
          rw [hf, ht] at h
          simp only [Except.map] at h
          cases h
          rfl
      | ok st => rw [hf, ht] at h; simp [Except.map] at h
  | ok stf =>
      cases ht : mergeLoop true grid initState with
      | error e2 => rw [hf, ht] at h; simp [Except.map] at h
      | ok stt =>
          rw [hf, ht] at h
          simp only [Except.map, Except.ok.injEq, Prod.mk.injEq] at h
          obtain ⟨hpages, htoc⟩ := h
          simp only [Except.map, Except.ok.injEq, Prod.mk.injEq]
          refine ⟨hpages, ?_⟩
          rw [htoc]
          simp

/-! ### The level-continuity invariant -/

/-- The relation `noUpJump` checks between consecutive entries. -/
def lvlStep (a b : TocEntry) : Prop := b.level ≤ a.level + 1

lemma noUpJump_iff (l : List TocEntry) :
    noUpJump l = true ↔ List.Chain' lvlStep l := by
  induction l with
  | nil => simp [noUpJump]
  | cons a l ih =>
      cases l with
      | nil => simp [noUpJump]
      | cons b t =>
          rw [show noUpJump (a :: b :: t)
            = (decide (b.level ≤ a.level + 1) && noUpJump (b :: t)) from rfl]
          rw [List.chain'_cons, Bool.and_eq_true, decide_eq_true_iff, ih]
          exact Iff.rfl

lemma fillerList_levels (p : Int) (k : LinkKind) (n : Nat) :
    ∀ base : Int, (fillerList n base p k).map TocEntry.level = ascRange (base + 1) n := by
  induction n with
  | zero => intro base; rfl
  | succ n ih =>
      intro base
      rw [show fillerList (n + 1) base p k
        = { level := base + 1, title := "<>", page := p, kind := k }
            :: fillerList n (base + 1) p k from rfl]
      rw [List.map_cons, ih (base + 1), ascRange_succ]

lemma fillerList_level_ge (p : Int) (k : LinkKind) (n : Nat) (base : Int)
    {x : TocEntry} (hx : x ∈ fillerList n base p k) : base + 1 ≤ x.level := by
  have hmap : x.level ∈ (fillerList n base p k).map TocEntry.level :=
    List.mem_map_of_mem _ hx
  rw [fillerList_levels] at hmap
  exact (mem_ascRange _ _ hmap).1

lemma chain'_fillerBlock (p : Int) (k : LinkKind) (e' : TocEntry) (n : Nat) :
    ∀ base : Int, e'.level ≤ base + n + 1 →
      List.Chain' lvlStep (fillerList n base p k ++ [e']) := by
  induction n with
  | zero =>
      intro base h
      simp [fillerList]
  | succ n ih =>
      intro base h
      rw [show fillerList (n + 1) base p k
        = { level := base + 1, title := "<>", page := p, kind := k }
            :: fillerList n (base + 1) p k from rfl]
      rw [List.cons_append, List.chain'_cons']
      refine ⟨fun y hy => ?_, ih (base + 1) (by push_cast at h ⊢; omega)⟩
      cases n with
      | zero =>
          simp only [fillerList, List.nil_append, List.head?_cons, Option.mem_def,
            Option.some.injEq] at hy
          subst hy
          show e'.level ≤ (base + 1) + 1
          push_cast at h
          omega
      | succ m =>
          rw [show fillerList (m + 1) (base + 1) p k
            = { level := base + 1 + 1, title := "<>", page := p, kind := k }
                :: fillerList m (base + 1 + 1) p k from rfl] at hy
          simp only [List.cons_append, List.head?_cons, Option.mem_def,
            Option.some.injEq] at hy
          subst hy
          show (base + 1 + 1 : Int) ≤ (base + 1) + 1
          omega

lemma fillerBlock_head_level (p : Int) (k : LinkKind) (e' : TocEntry) (n : Nat) (base : Int)
    (h0 : n = 0 → e'.level ≤ base + 1) :
    ∀ y ∈ (fillerList n base p k ++ [e']).head?, y.level ≤ base + 1 := by
  intro y hy
  cases n with
  | zero =>
      simp only [fillerList, List.nil_append, List.head?_cons, Option.mem_def,
        Option.some.injEq] at hy
      subst hy
      exact h0 rfl
  | succ m =>
      rw [show fillerList (m + 1) base p k
        = { level := base + 1, title := "<>", page := p, kind := k }
            :: fillerList m (base + 1) p k from rfl] at hy
      simp only [List.cons_append, List.head?_cons, Option.mem_def,
        Option.some.injEq] at hy
      subst hy
      exact le_refl _

/-- The invariant maintained on `total_toc`: consecutive levels never
jump up by more than 1, and every level is at least 1. -/
def accInv (acc : List TocEntry) : Prop :=
  List.Chain' lvlStep acc ∧ ∀ x ∈ acc, 1 ≤ x.level

lemma tocStep_inv (pgR : List Int) (cur : Nat) (l : Int) (acc : List TocEntry)
    (e : TocEntry) (he : 1 ≤ e.level) (hk : e.kind ≠ .other) (hl : 1 ≤ l)
    (hacc : accInv acc) (hlast : ∀ x ∈ acc.getLast?, l ≤ x.level) :
    1 ≤ (tocStep pgR cur (l, acc) e).1 ∧ accInv (tocStep pgR cur (l, acc) e).2 ∧
      ∀ x ∈ (tocStep pgR cur (l, acc) e).2.getLast?,
        (tocStep pgR cur (l, acc) e).1 ≤ x.level := by
  cases hkind : e.kind with
  | other => exact absurd hkind hk
  | named =>
      simp only [tocStep, hkind]
      exact ⟨hl, hacc, hlast⟩
  | goto =>
      cases hidx : listIndex (e.page - 1) pgR with
      | none =>
          simp only [tocStep, hkind, hidx]
          exact ⟨hl, hacc, hlast⟩
      | some idx =>
          simp only [tocStep, hkind, hidx]
          have hcount : e.level ≤ l + (fillerCount e.level l : Int) + 1 := by
            unfold fillerCount
            omega
          have hcount0 : fillerCount e.level l = 0 → e.level ≤ l + 1 := by
            unfold fillerCount
            omega
          refine ⟨he, ⟨?_, ?_⟩, ?_⟩
          · rw [List.append_assoc]
            refine (List.chain'_append).mpr ⟨hacc.1, ?_, ?_⟩
            · exact chain'_fillerBlock _ _ _ _ l hcount
            · intro x hx y hy
              have hyl : y.level ≤ l + 1 :=
                fillerBlock_head_level _ _
                  ⟨e.level, e.title, (idx : Int) + (cur : Int) + 1, LinkKind.goto⟩
                  _ l (fun h0 => hcount0 h0) y hy
              have hxl : l ≤ x.level := hlast x hx
              show y.level ≤ x.level + 1
              omega
          · intro x hx
            rw [List.append_assoc, List.mem_append] at hx
            rcases hx with hx | hx
            · exact hacc.2 x hx
            · rw [List.mem_append] at hx
              rcases hx with hx | hx
              · have := fillerList_level_ge _ _ _ _ hx
                omega
              · simp only [List.mem_singleton] at hx
                subst hx
                exact he
          · intro x hx
            rw [List.getLast?_concat] at hx
            simp only [Option.mem_def, Option.some.injEq] at hx
            subst hx
            exact le_refl _

lemma tocFold_inv (pgR : List Int) (cur : Nat) (toc : List TocEntry) :
    (∀ e ∈ toc, 1 ≤ e.level ∧ e.kind ≠ .other) →
    ∀ (l : Int) (acc : List TocEntry), 1 ≤ l → accInv acc →
      (∀ x ∈ acc.getLast?, l ≤ x.level) →
      accInv (tocFold pgR cur (l, acc) toc).2 := by
  induction toc with
  | nil => exact fun _ l acc _ hacc _ => hacc
  | cons e toc ih =>
      intro htoc l acc hl hacc hlast
      have he := htoc e (List.mem_cons_self e toc)
      have hstep := tocStep_inv pgR cur l acc e he.1 he.2 hl hacc hlast
      show accInv (tocFold pgR cur (tocStep pgR cur (l, acc) e) toc).2
      exact ih (fun e' he' => htoc e' (List.mem_cons_of_mem e he')) _ _
        hstep.1 hstep.2.1 hstep.2.2

lemma processSource_inv (st : MergeState) (src : Source)
    (hsrc : ∀ e ∈ src.toc, 1 ≤ e.level ∧ e.kind ≠ .other)
    (hst : accInv st.totalToc) : accInv (processSource true st src).totalToc := by
  cases hp : src.needsPass with
  | true =>
      rw [processSource_eq, if_pos hp]
      exact hst
  | false =>
      have heq : (processSource true st src).totalToc
          = (tocFold
              (pgRangeList (clampFirst src.firstPg src.pages)
                (resolveLast src.lastPg src.pages))
              st.currentPg (1, st.totalToc)
              (if clampFirst src.firstPg src.pages > resolveLast src.lastPg src.pages then
                src.toc.reverse
              else src.toc)).2 := by
        simp [processSource, hp]
      rw [heq]
      refine tocFold_inv _ _ _ (fun e he => ?_) 1 st.totalToc le_rfl hst
        (fun x hx => hst.2 x (List.mem_of_mem_getLast? hx))
      split at he
      · exact hsrc e (List.mem_reverse.mp he)
      · exact hsrc e he

lemma mergeLoop_inv (srcs : List Source)
    (hsrcs : ∀ src ∈ srcs, ∀ e ∈ src.toc, 1 ≤ e.level ∧ e.kind ≠ .other) :
    ∀ st st', accInv st.totalToc → mergeLoop true srcs st = .ok st' →
      accInv st'.totalToc := by
  induction srcs with
  | nil =>
      intro st st' h hloop
      simp only [mergeLoop, Except.ok.injEq] at hloop
      rw [← hloop]
      exact h
  | cons src rest ih =>
      intro st st' h hloop
      by_cases ho : src.opensOk = true
      · simp only [mergeLoop, ho, if_true] at hloop
        exact ih (fun s hs => hsrcs s (List.mem_cons_of_mem src hs)) _ st'
          (processSource_inv st src (hsrcs src (List.mem_cons_self src rest)) h) hloop
      · simp [mergeLoop, ho] at hloop

/-- C3 counterexample: a single source whose outline is a level-1 goto
entry followed by a level-3 entry of a non-goto, non-named kind.  The
pass-through branch (line 848) appends the latter without level repair,
so the output levels are `[1, 3]` — an upward jump of 2. -/
theorem levelRepair_C3_counterexample :
    (mergePdfs [srcOther] true).map (fun d => d.toc.map TocEntry.level) = .ok [1, 3] ∧
    (mergePdfs [srcOther] true).map (fun d => noUpJump d.toc) = .ok false :=
  ⟨by decide, by decide⟩

/-- C3 (amended): the output outline level sequence never jumps upward by
more than 1 provided every source outline entry has level at least 1 and
no entry is of pass-through (`Other`) kind — the repair loop of lines
842-844 runs only in the `Goto` branch, and pass-through entries are
appended without repair. -/
theorem levelRepair_C3_amended (grid : List Source) (d : OutputDoc)
    (hgrid : ∀ src ∈ grid, ∀ e ∈ src.toc, 1 ≤ e.level ∧ e.kind ≠ .other)
    (hok : mergePdfs grid true = .ok d) :
    noUpJump d.toc = true := by
  unfold mergePdfs at hok
  cases hloop : mergeLoop true grid initState with
  | error e => rw [hloop] at hok; cases hok
  | ok st =>
      rw [hloop] at hok
      dsimp only at hok
      cases hok
      have hinv := mergeLoop_inv grid hgrid initState st
        ⟨List.chain'_nil, fun x hx => absurd hx (List.not_mem_nil x)⟩ hloop
      show noUpJump (if st.totalToc.isEmpty then [] else st.totalToc) = true
      by_cases hz : st.totalToc.isEmpty
      · rw [if_pos hz]
        rfl
      · rw [if_neg hz]
        exact (noUpJump_iff _).mpr hinv.1

/-- The output of merging `srcLvl3A` and `srcLvl3B` in finalize mode. -/
def docLvl : OutputDoc :=
  { pages := [⟨"a.pdf", 0, 0, true⟩, ⟨"b.pdf", 0, 0, true⟩],
    toc := [⟨2, "<>", 1, .goto⟩, ⟨3, "x", 1, .goto⟩, ⟨2, "<>", 2, .goto⟩,
      ⟨3, "y", 2, .goto⟩] }

/-- Witness for C3 (amended) on the all-goto grid
`[srcLvl3A, srcLvl3B]`. -/
theorem levelRepair_C3_witness :
    (∀ src ∈ [srcLvl3A, srcLvl3B], ∀ e ∈ src.toc, 1 ≤ e.level ∧ e.kind ≠ .other) ∧
    mergePdfs [srcLvl3A, srcLvl3B] true = .ok docLvl ∧
    noUpJump docLvl.toc = true :=
  ⟨by decide, by decide,
   levelRepair_C3_amended [srcLvl3A, srcLvl3B] docLvl (by decide) (by decide)⟩

end PdfMerger
